import Mathlib

/-!
# ankiconnect: review decoders and manager operations

A shallow embedding of `cards.go` and `decks.go`.

* Go `int64` values are integers of `Int` together with the range predicate
  `inInt64`; the one place where the source does arithmetic on them
  (`time.Time.UnixMilli`) wraps explicitly with `wrapInt64`.
* A method with a pointer receiver that returns `error` becomes a function from
  the old value of the receiver to the pair (new value, `Option Error`).
* The `data []byte` argument of the two decoders is taken as the JSON value the
  bytes denote (`JSON`); text that is not JSON at all is outside the model.
* The order in which `for k, v := range tmp` visits a Go map is not fixed by
  the language; the embedding takes it as an argument (`visit`), a function
  that rearranges the entries of the map.
-/

namespace ankiconnect

/-! ## Machine integers -/

/-- The values of a Go `int64`. -/
def inInt64 (n : Int) : Prop := -9223372036854775808 ≤ n ∧ n ≤ 9223372036854775807

instance (n : Int) : Decidable (inInt64 n) := by
  unfold inInt64
  exact inferInstance

/-- Two's-complement wrap-around of an integer result into `int64`. -/
def wrapInt64 (n : Int) : Int := (n + 9223372036854775808) % 18446744073709551616 - 9223372036854775808

/-! ## JSON values -/

/-- A JSON value. A number written as an integer literal is `num`; a number
with a fraction or an exponent keeps its text in `real`. The members of an
object are kept in the order of the text, repeated keys included. -/
inductive JSON where
  | null : JSON
  | bool (b : Bool) : JSON
  | num (n : Int) : JSON
  | real (lit : String) : JSON
  | str (s : String) : JSON
  | arr (items : List JSON) : JSON
  | obj (members : List (String × JSON)) : JSON

/-! ## Errors -/

namespace strconv

/-- The two causes of a `*strconv.NumError`. -/
inductive Cause where
  | ErrSyntax : Cause
  | ErrRange : Cause
  deriving DecidableEq, Repr

/-- Go `strconv.NumError`: the failing function, its input and the cause. -/
structure NumError where
  Func : String
  Num : String
  Err : Cause
  deriving DecidableEq, Repr

end strconv

/-- An operand of a `fmt.Errorf` call. -/
inductive FmtArg where
  | int (n : Int) : FmtArg
  | str (s : String) : FmtArg
  | numError (e : strconv.NumError) : FmtArg
  deriving DecidableEq, Repr

/-- A Go `error` value as the decoders produce it: either the type error of
`encoding/json` (the offending JSON value and the Go type it was decoded into)
or the result of `fmt.Errorf`, kept as the format string and its operands. The
path to the offending value inside the input, which Go releases record in the
type error to a varying extent, is not kept: `value` is the value found at
that place. -/
inductive Error where
  | unmarshalType (value : JSON) (goType : String) : Error
  | errorf (format : String) (args : List FmtArg) : Error

/-! ## Go maps -/

/-- A Go map: a list of entries holding at most one entry per key. The order of
the list carries no meaning; maps are compared through `GoMap.lookup` and
`GoMap.len`. -/
structure GoMap (κ ν : Type) where
  entries : List (κ × ν)

namespace GoMap

variable {κ ν : Type}

/-- The empty map. -/
def empty : GoMap κ ν := ⟨[]⟩

/-- Search of a key in a list of entries. -/
def find [DecidableEq κ] (k : κ) : List (κ × ν) → Option ν
  | [] => none
  | e :: rest => if e.1 = k then some e.2 else find k rest

/-- Map index `m[k]`, `none` when the key is absent. -/
def lookup [DecidableEq κ] (m : GoMap κ ν) (k : κ) : Option ν := find k m.entries

/-- Map assignment `m[k] = v`: replaces the entry of `k` if there is one. -/
def store [DecidableEq κ] (m : GoMap κ ν) (k : κ) (v : ν) : GoMap κ ν :=
  ⟨(k, v) :: m.entries.filter (fun e => decide (e.1 ≠ k))⟩

/-- Go `len(m)`. -/
def len (m : GoMap κ ν) : Nat := m.entries.length

/-- The keys of the map. -/
def keys (m : GoMap κ ν) : List κ := m.entries.map Prod.fst

end GoMap

/-! ## strconv.ParseInt -/

namespace strconv

/-- The digit loop of `strconv.ParseUint(s, 10, 64)`: `n` is the value read so
far. A byte that is not a decimal digit is a syntax error (base 10 allows no
underscore); a value past `2^64 - 1` is a range error, reported as soon as it
is reached. -/
def parseUintLoop : Nat → List Char → Except Cause Nat
  | n, [] => .ok n
  | n, c :: cs =>
    if ¬ (48 ≤ c.toNat ∧ c.toNat ≤ 57) then .error .ErrSyntax
    else if n ≥ 1844674407370955162 then .error .ErrRange
    else
      let n1 := n * 10 + (c.toNat - 48)
      if n1 > 18446744073709551615 then .error .ErrRange
      else parseUintLoop n1 cs

/-- Go `strconv.ParseUint(s, 10, 64)` on the characters of `s`. On a range
error the value returned with it is `2^64 - 1`. -/
def ParseUint10 (s : List Char) : Except Cause Nat :=
  match s with
  | [] => .error .ErrSyntax
  | _ => parseUintLoop 0 s

/-- Go `strconv.ParseInt(s, 10, 64)`. -/
def ParseInt (s : String) : Except NumError Int :=
  match s.toList with
  | [] => .error ⟨"ParseInt", s, .ErrSyntax⟩
  | c :: cs =>
    let neg := decide (c = '-')
    let rest := if c = '+' ∨ c = '-' then cs else c :: cs
    match ParseUint10 rest with
    | .error .ErrSyntax => .error ⟨"ParseInt", s, .ErrSyntax⟩
    | .error .ErrRange => .error ⟨"ParseInt", s, .ErrRange⟩
    | .ok un =>
      if ¬ neg ∧ un ≥ 9223372036854775808 then .error ⟨"ParseInt", s, .ErrRange⟩
      else if neg ∧ un > 9223372036854775808 then .error ⟨"ParseInt", s, .ErrRange⟩
      else .ok (if neg then -(un : Int) else (un : Int))

end strconv

/-- A decimal-integer string, as the specification uses the words: an optional
sign followed by one or more decimal digits. -/
def isDecimalIntegerString (s : String) : Bool :=
  match s.toList with
  | [] => false
  | c :: cs =>
    let digits := if c = '+' ∨ c = '-' then cs else c :: cs
    !digits.isEmpty && digits.all (fun d => decide (48 ≤ d.toNat ∧ d.toNat ≤ 57))

/-! ## encoding/json, decoding

`json.Unmarshal` works by reflection on the type of its destination. Each
definition below is `json.Unmarshal` at one destination type of the source.
When a value has the wrong type Go records the error, goes on decoding and
returns the first error recorded; the callers here look at nothing but the
error in that case, so the definitions stop at the first error. -/

namespace json

/-- Decoding into an `int64` that holds `cur`: an integer literal in range is
stored, `null` leaves the destination as it is, anything else is a type
error. -/
def unmarshalInt64 (cur : Int) : JSON → Except Error Int
  | .null => .ok cur
  | .num n => if inInt64 n then .ok n else .error (.unmarshalType (.num n) "int64")
  | v => .error (.unmarshalType v "int64")

/-- Decoding into a nil `[]int64`: one element per item of the array, each
decoded into a zero `int64`; `null` leaves the slice nil. -/
def unmarshalInt64Slice : JSON → Except Error (List Int)
  | .null => .ok []
  | .arr items => items.mapM (unmarshalInt64 0)
  | v => .error (.unmarshalType v "[]int64")

/-- Case folding of one character of an object key, as `encoding/json` does it
to match keys with field names: ASCII letters go to upper case, and the two
other characters that fold to an ASCII letter (U+017F and U+212A) go to `S`
and `K`. -/
def foldRune (c : Char) : Char :=
  if 97 ≤ c.toNat ∧ c.toNat ≤ 122 then Char.ofNat (c.toNat - 32)
  else if c.toNat = 0x17F then 'S'
  else if c.toNat = 0x212A then 'K'
  else c

/-- The folded form of an object key. -/
def foldName (s : String) : String := String.mk (s.toList.map foldRune)

end json

/-- One review of a card, as `getReviewsOfCards` returns it. The field `Type`
of the source is `Type_` here. -/
structure ReviewData where
  ID : Int
  USN : Int
  Ease : Int
  Interval : Int
  LastIvl : Int
  Factor : Int
  Time : Int
  Type_ : Int
  deriving DecidableEq, Repr

/-- The zero value of `ReviewData`. -/
def ReviewData.zero : ReviewData := ⟨0, 0, 0, 0, 0, 0, 0, 0⟩

namespace json

/-- Decoding of one member of a JSON object into a `ReviewData`: the key picks
the field whose `json` tag it matches up to case (the eight tags stay distinct
after folding, so the exact match Go tries first picks the same field); a key
that matches no field is skipped. -/
def setReviewField (r : ReviewData) (key : String) (v : JSON) : Except Error ReviewData :=
  let name := foldName key
  if name = "ID" then (unmarshalInt64 r.ID v).map (fun x => { r with ID := x })
  else if name = "USN" then (unmarshalInt64 r.USN v).map (fun x => { r with USN := x })
  else if name = "EASE" then (unmarshalInt64 r.Ease v).map (fun x => { r with Ease := x })
  else if name = "IVL" then (unmarshalInt64 r.Interval v).map (fun x => { r with Interval := x })
  else if name = "LASTIVL" then (unmarshalInt64 r.LastIvl v).map (fun x => { r with LastIvl := x })
  else if name = "FACTOR" then (unmarshalInt64 r.Factor v).map (fun x => { r with Factor := x })
  else if name = "TIME" then (unmarshalInt64 r.Time v).map (fun x => { r with Time := x })
  else if name = "TYPE" then (unmarshalInt64 r.Type_ v).map (fun x => { r with Type_ := x })
  else .ok r

/-- Decoding into a zero `ReviewData`: the members of an object are applied in
the order of the text; `null` leaves the zero value. -/
def unmarshalReviewData : JSON → Except Error ReviewData
  | .null => .ok ReviewData.zero
  | .obj members => members.foldlM (fun r kv => setReviewField r kv.1 kv.2) ReviewData.zero
  | v => .error (.unmarshalType v "ankiconnect.ReviewData")

/-- Decoding into a nil `[]ReviewData`. -/
def unmarshalReviewSlice : JSON → Except Error (List ReviewData)
  | .null => .ok []
  | .arr items => items.mapM unmarshalReviewData
  | v => .error (.unmarshalType v "[]ankiconnect.ReviewData")

/-- The members of an object stored one after the other into a
`map[string][]ReviewData`: each value is decoded into a fresh slice and
assigned under its key, so of two members with the same key the later one
stays. -/
def storeMembers : GoMap String (List ReviewData) → List (String × JSON) →
    Except Error (GoMap String (List ReviewData))
  | tmp, [] => .ok tmp
  | tmp, kv :: rest =>
    match unmarshalReviewSlice kv.2 with
    | .error err => .error err
    | .ok reviews => storeMembers (tmp.store kv.1 reviews) rest

/-- Decoding into the map `tmp` of type `map[string][]ReviewData`: `null` makes
the map nil (no entries). -/
def unmarshalReviewMap (tmp : GoMap String (List ReviewData)) :
    JSON → Except Error (GoMap String (List ReviewData))
  | .null => .ok GoMap.empty
  | .obj members => storeMembers tmp members
  | v => .error (.unmarshalType v "map[string][]ankiconnect.ReviewData")

end json

/-! ## cards.go: ResultGetReviews -/

/-- Go `type ResultGetReviews map[int64][]ReviewData`. -/
abbrev ResultGetReviews := GoMap Int (List ReviewData)

/-- The body of `for k, v := range tmp` in `ResultGetReviews.UnmarshalJSON`, run
over the entries in the order they are visited: a key that does not parse
returns at once with the map as filled so far. -/
def ResultGetReviews.rangeLoop : ResultGetReviews → List (String × List ReviewData) →
    ResultGetReviews × Option Error
  | m, [] => (m, none)
  | m, kv :: rest =>
    match strconv.ParseInt kv.1 with
    | .error err => (m, some (.errorf "invalid key %q: %s" [.str kv.1, .numError err]))
    | .ok i => ResultGetReviews.rangeLoop (m.store i kv.2) rest

/-- Go `func (m *ResultGetReviews) UnmarshalJSON(data []byte) error`. The
result is the value of `*m` after the call and the error returned. `visit`
gives the order in which `range` goes through the entries of `tmp`. -/
def ResultGetReviews.UnmarshalJSON
    (visit : List (String × List ReviewData) → List (String × List ReviewData))
    (m : ResultGetReviews) (data : JSON) : ResultGetReviews × Option Error :=
  match json.unmarshalReviewMap GoMap.empty data with
  | .error err => (m, some err)
  | .ok tmp => ResultGetReviews.rangeLoop GoMap.empty (visit tmp.entries)

/-! ## decks.go: CardReview -/

/-- One review of a deck, as `cardReviews` returns it. -/
structure CardReview where
  ReviewTime : Int
  CardID : Int
  USN : Int
  ButtonPressed : Int
  NewInterval : Int
  PreviousInterval : Int
  NewFactor : Int
  ReviewDuration : Int
  ReviewType : Int
  deriving DecidableEq, Repr

/-- Go `func (r *CardReview) UnmarshalJSON(data []byte) error`. The result is
the value of `*r` after the call and the error returned. -/
def CardReview.UnmarshalJSON (r : CardReview) (data : JSON) : CardReview × Option Error :=
  match json.unmarshalInt64Slice data with
  | .error err => (r, some err)
  | .ok raw =>
    if h : raw.length ≠ 9 then
      (r, some (.errorf "unexpected number of fields in card review: got %d, expected 9"
        [.int raw.length]))
    else
      ({ ReviewTime := raw[0]
         CardID := raw[1]
         USN := raw[2]
         ButtonPressed := raw[3]
         NewInterval := raw[4]
         PreviousInterval := raw[5]
         NewFactor := raw[6]
         ReviewDuration := raw[7]
         ReviewType := raw[8] }, none)

/-- The nine fields of a record in the order of the wire format. -/
def CardReview.toList (r : CardReview) : List Int :=
  [r.ReviewTime, r.CardID, r.USN, r.ButtonPressed, r.NewInterval, r.PreviousInterval,
   r.NewFactor, r.ReviewDuration, r.ReviewType]

/-! ## Go time -/

namespace time

/-- Go `time.Time`, reduced to the two readings `UnixMilli` takes of it: the
Unix time in seconds (`unixSec()`, an `int64`) and the nanoseconds within the
second (`nsec()`, from 0 to 999999999). -/
structure Time where
  unixSec : Int
  nsec : Int
  deriving DecidableEq, Repr

/-- The values a `time.Time` can hold. -/
def Time.valid (t : Time) : Prop := inInt64 t.unixSec ∧ 0 ≤ t.nsec ∧ t.nsec < 1000000000

instance (t : Time) : Decidable t.valid := by
  unfold Time.valid
  exact inferInstance

/-- Go `time.Unix(sec, nsec)`: nanoseconds outside `[0, 1e9)` are carried into
the seconds. -/
def Unix (sec nsec : Int) : Time :=
  if nsec < 0 ∨ nsec ≥ 1000000000 then
    let n := Int.tdiv nsec 1000000000
    let sec1 := wrapInt64 (sec + n)
    let nsec1 := nsec - n * 1000000000
    if nsec1 < 0 then ⟨wrapInt64 (sec1 - 1), nsec1 + 1000000000⟩ else ⟨sec1, nsec1⟩
  else ⟨sec, nsec⟩

/-- Go `time.UnixMilli(msec)`, which is `Unix(msec/1e3, (msec%1e3)*1e6)` with
Go's truncating division. -/
def UnixMilli (msec : Int) : Time := Unix (Int.tdiv msec 1000) (Int.tmod msec 1000 * 1000000)

/-- Go `func (t Time) UnixMilli() int64`, which is
`t.unixSec()*1e3 + int64(t.nsec())/1e6` in `int64` arithmetic. -/
def Time.UnixMilli (t : Time) : Int := wrapInt64 (t.unixSec * 1000 + Int.tdiv t.nsec 1000000)

/-- The number of milliseconds from the Unix epoch to `t`, as a mathematical
integer: the specification's reading of the start cursor. -/
def Time.millisSinceEpoch (t : Time) : Int := (t.unixSec * 1000000000 + t.nsec) / 1000000

end time

/-! ## Request parameters and their JSON form -/

/-- Go `ParamsFindCards`. -/
structure ParamsFindCards where
  Query : String
  deriving DecidableEq, Repr

/-- A Go slice on its way to the wire: the nil slice, or a slice with its
elements (possibly none). The two differ in their JSON form. Slices that the
code only measures, indexes or hands back are plain lists. -/
inductive Slice (α : Type) where
  | nil : Slice α
  | mk (elems : List α) : Slice α
  deriving DecidableEq, Repr

/-- `json.Marshal` of a slice: `null` for the nil slice, otherwise the array of
the elements. -/
def Slice.marshal {α : Type} (f : α → JSON) : Slice α → JSON
  | .nil => .null
  | .mk elems => .arr (elems.map f)

/-- Go `ParamsCardsInfo`; `Cards` is a pointer to a slice, `none` when the
pointer is nil. -/
structure ParamsCardsInfo where
  Cards : Option (Slice Int)
  deriving DecidableEq, Repr

/-- Go `ParamsDeleteDecks`; `Decks` is a pointer to a slice, `none` when the
pointer is nil. -/
structure ParamsDeleteDecks where
  Decks : Option (Slice String)
  CardsToo : Bool
  deriving DecidableEq, Repr

/-- Go `ParamsCardReviews`. -/
structure ParamsCardReviews where
  Deck : String
  StartID : Int
  deriving DecidableEq, Repr

/-- `json.Marshal` of a `ParamsFindCards`: tag `query,omitempty`. -/
def ParamsFindCards.marshal (p : ParamsFindCards) : JSON :=
  .obj (if p.Query = "" then [] else [("query", .str p.Query)])

/-- `json.Marshal` of a `ParamsCardsInfo`: tag `cards,omitempty`, which leaves
the key out for a nil pointer only; behind a non-nil pointer the slice is
written whatever it holds, the nil slice as `null`. -/
def ParamsCardsInfo.marshal (p : ParamsCardsInfo) : JSON :=
  .obj (match p.Cards with
    | none => []
    | some ids => [("cards", ids.marshal JSON.num)])

/-- `json.Marshal` of a `ParamsDeleteDecks`: tags `decks,omitempty` (left out
for a nil pointer) and `cardsToo,omitempty` (left out when false). -/
def ParamsDeleteDecks.marshal (p : ParamsDeleteDecks) : JSON :=
  .obj ((match p.Decks with
    | none => []
    | some decks => [("decks", decks.marshal JSON.str)])
    ++ (if p.CardsToo then [("cardsToo", .bool true)] else []))

/-- `json.Marshal` of a `ParamsCardReviews`: tags `deck,omitempty` (left out
for the empty string) and `startID` (always written). -/
def ParamsCardReviews.marshal (p : ParamsCardReviews) : JSON :=
  .obj ((if p.Deck = "" then [] else [("deck", .str p.Deck)]) ++ [("startID", .num p.StartID)])

/-- The parameter records the managers pass to `post`. -/
inductive Params where
  | findCards (p : ParamsFindCards) : Params
  | cardsInfo (p : ParamsCardsInfo) : Params
  | deleteDecks (p : ParamsDeleteDecks) : Params
  | cardReviews (p : ParamsCardReviews) : Params
  deriving DecidableEq, Repr

/-- The serialised form of a parameter record. -/
def Params.marshal : Params → JSON
  | .findCards p => p.marshal
  | .cardsInfo p => p.marshal
  | .deleteDecks p => p.marshal
  | .cardReviews p => p.marshal

/-! ## The client -/

/-- The error type of the managers (`errors.RestErr` of the utility package the
source imports). -/
structure RestErr where
  Message : String
  StatusCode : Int
  Error : String
  deriving DecidableEq, Repr

/-- One call of the transport: the action name and the parameters, `none` when
the call passes a nil pointer. -/
structure Invocation where
  action : String
  params : Option Params
  deriving DecidableEq, Repr

/-- The serialised parameters of an invocation. -/
def Invocation.serialisedParams (inv : Invocation) : Option JSON := inv.params.map Params.marshal

/-- The pair `(*T, *errors.RestErr)` a call returns; `none` is nil. -/
abbrev Reply (T : Type) := Option T × Option RestErr

/-- The far end of the transport at result type `T`: given an invocation and
its own state it answers and moves to a new state. -/
abbrev Transport (σ T : Type) := Invocation → σ → Reply T × σ

/-- Modelled from the spec: the `Client` of the repository (its declaration is
not among the sources). It is the state of the far end together with the
invocations issued so far, oldest first. -/
structure Client (σ : Type) where
  server : σ
  sent : List Invocation

/-- Modelled from the spec: the generic `post[T]` of the repository (its
definition is not among the sources), the operation "invoke(action, params)" of
the Transport component: one call issues one request and returns what the far
end answers, as a result of type `T` or an error. -/
def post {σ T : Type} (transport : Transport σ T) (c : Client σ) (action : String)
    (params : Option Params) : Reply T × Client σ :=
  let inv : Invocation := ⟨action, params⟩
  let answer := transport inv c.server
  (answer.1, ⟨answer.2, c.sent ++ [inv]⟩)

/-! ## cards.go: the cards manager -/

/-- Go `ActionFindCards`. -/
def ActionFindCards : String := "findCards"

/-- Go `ActionCardsInfo`. -/
def ActionCardsInfo : String := "cardsInfo"

/-- Go `ActionGetReviewsOfCards`. -/
def ActionGetReviewsOfCards : String := "getReviewsOfCards"

/-- Go `ResultCardsInfo`. The type `FieldData` of the values of `Fields` is
declared outside the sources and is a parameter here. -/
structure ResultCardsInfo (FieldData : Type) where
  Answer : String
  Question : String
  DeckName : String
  ModelName : String
  FieldOrder : Int
  Fields : GoMap String FieldData
  Css : String
  CardId : Int
  Interval : Int
  Note : Int
  Ord : Int
  Type_ : Int
  Queue : Int
  Due : Int
  Reps : Int
  Lapses : Int
  Left : Int
  Mod : Int

/-- Go `func (cm *cardsManager) Search(query string)`. -/
def cardsManager.Search {σ : Type} (findCards : Transport σ (Slice Int)) (cm : Client σ)
    (query : String) : Reply (Slice Int) × Client σ :=
  let findParams : ParamsFindCards := { Query := query }
  post findCards cm ActionFindCards (some (.findCards findParams))

/-- Go `func (cm *cardsManager) Get(query string)`. -/
def cardsManager.Get {σ F : Type} (findCards : Transport σ (Slice Int))
    (cardsInfo : Transport σ (List (ResultCardsInfo F))) (cm : Client σ) (query : String) :
    Reply (List (ResultCardsInfo F)) × Client σ :=
  match cardsManager.Search findCards cm query with
  | ((_, some restErr), cm1) => ((none, some restErr), cm1)
  | ((cardIds, none), cm1) =>
    let infoParams : ParamsCardsInfo := { Cards := cardIds }
    post cardsInfo cm1 ActionCardsInfo (some (.cardsInfo infoParams))

/-- Go `func (cm *cardsManager) GetReviews(query string)`. -/
def cardsManager.GetReviews {σ : Type} (findCards : Transport σ (Slice Int))
    (getReviewsOfCards : Transport σ ResultGetReviews) (cm : Client σ) (query : String) :
    Reply ResultGetReviews × Client σ :=
  match cardsManager.Search findCards cm query with
  | ((_, some restErr), cm1) => ((none, some restErr), cm1)
  | ((cardIds, none), cm1) =>
    let getReviewsParams : ParamsCardsInfo := { Cards := cardIds }
    post getReviewsOfCards cm1 ActionGetReviewsOfCards (some (.cardsInfo getReviewsParams))

/-! ## decks.go: the decks manager -/

/-- Go `ActionDeleteDecks`. -/
def ActionDeleteDecks : String := "deleteDecks"

/-- Go `ActionCardReviews`. -/
def ActionCardReviews : String := "cardReviews"

/-- Go `type ResultCardReviews []*CardReview`; a nil element is `none`. -/
abbrev ResultCardReviews := List (Option CardReview)

/-- Go `func (dm *decksManager) Delete(name string) *errors.RestErr`. -/
def decksManager.Delete {σ : Type} (deleteDecks : Transport σ String) (dm : Client σ)
    (name : String) : Option RestErr × Client σ :=
  let params : ParamsDeleteDecks := { Decks := some (.mk [name]), CardsToo := true }
  match post deleteDecks dm ActionDeleteDecks (some (.deleteDecks params)) with
  | ((_, some restErr), dm1) => (some restErr, dm1)
  | ((_, none), dm1) => (none, dm1)

/-- Go `func (dm *decksManager) GetReviewsAfter(name string, startTime time.Time)`. -/
def decksManager.GetReviewsAfter {σ : Type} (cardReviews : Transport σ ResultCardReviews)
    (dm : Client σ) (name : String) (startTime : time.Time) :
    Reply ResultCardReviews × Client σ :=
  let params : ParamsCardReviews := { Deck := name, StartID := startTime.UnixMilli }
  match post cardReviews dm ActionCardReviews (some (.cardReviews params)) with
  | ((_, some restErr), dm1) => ((none, some restErr), dm1)
  | ((reviews, none), dm1) => ((reviews, none), dm1)

/-! ## Vocabulary of the statements -/

/-- A well-formed array of review entries: a JSON array each item of which
decodes as a `ReviewData`. -/
def isReviewArray : JSON → Bool
  | .arr items => items.all (fun item => (json.unmarshalReviewData item).toBool)
  | _ => false

/-- The integer a key string denotes for `strconv.ParseInt`, 0 for a key that
does not parse. -/
def keyValue (k : String) : Int :=
  match strconv.ParseInt k with
  | .ok i => i
  | .error _ => 0

/-- The reviews a JSON value decodes to as a `[]ReviewData`, none for a value
that does not decode. -/
def reviewsOf (v : JSON) : List ReviewData :=
  match json.unmarshalReviewSlice v with
  | .ok reviews => reviews
  | .error _ => []

/-- The members of the result of the test `TestCardsManager_GetReviews/success`
(one card with two reviews), followed by a second card with no review. -/
def sampleReviewMembers : List (String × JSON) :=
  [("1653613948202",
    .arr [.obj [("id", .num 1653772912146), ("usn", .num 1750), ("ease", .num 1),
                ("ivl", .num (-20)), ("lastIvl", .num (-20)), ("factor", .num 0),
                ("time", .num 38192), ("type", .num 0)],
          .obj [("id", .num 1653772965429), ("usn", .num 1750), ("ease", .num 3),
                ("ivl", .num (-45)), ("lastIvl", .num (-20)), ("factor", .num 0),
                ("time", .num 15337), ("type", .num 0)]]),
   ("1653613948203", .arr [])]

/-! ## The positional review-array decoder -/

/-- An array of integer literals, all in `int64` range, decodes into the list
of its values. -/
theorem unmarshalInt64Slice_nums (xs : List Int) (hrange : ∀ x ∈ xs, inInt64 x) :
    json.unmarshalInt64Slice (.arr (xs.map JSON.num)) = .ok xs := by
  have key : (xs.map JSON.num).mapM (json.unmarshalInt64 0) = (.ok xs : Except Error (List Int)) := by
    induction xs with
    | nil => rfl
    | cons x rest ih =>
      have hx : inInt64 x := hrange x (List.mem_cons_self x rest)
      have hrest := ih (fun y hy => hrange y (List.mem_cons_of_mem x hy))
      simp only [List.map_cons, List.mapM_cons, json.unmarshalInt64, hx, if_true, hrest]
      rfl
  simpa [json.unmarshalInt64Slice] using key

/-- C1: for every array of exactly nine integers in `int64` range and every
destination record, `CardReview.UnmarshalJSON` returns no error and the record
it leaves, read back field by field in the order ReviewTime, CardID, USN,
ButtonPressed, NewInterval, PreviousInterval, NewFactor, ReviewDuration,
ReviewType, is the input array. -/
theorem CardReview_UnmarshalJSON_roundtrip (r : CardReview) (xs : List Int)
    (hlen : xs.length = 9) (hrange : ∀ x ∈ xs, inInt64 x) :
    ∃ r1 : CardReview, CardReview.UnmarshalJSON r (.arr (xs.map JSON.num)) = (r1, none) ∧
      r1.toList = xs := by
  match xs, hlen with
  | [a, b, c, d, e, f, g, h, i], _ =>
    refine ⟨⟨a, b, c, d, e, f, g, h, i⟩, ?_, rfl⟩
    unfold CardReview.UnmarshalJSON
    rw [unmarshalInt64Slice_nums _ hrange]
    rfl

/-- The first review of the deck test decodes to its own nine numbers. -/
theorem CardReview_UnmarshalJSON_roundtrip_witness :
    ∃ r1 : CardReview,
      CardReview.UnmarshalJSON ⟨0, 0, 0, 0, 0, 0, 0, 0, 0⟩
        (.arr ([1594194095746, 1485369733217, -1, 3, 4, -60, 2500, 6157, 0].map JSON.num))
        = (r1, none) ∧
      r1.toList = [1594194095746, 1485369733217, -1, 3, 4, -60, 2500, 6157, 0] :=
  CardReview_UnmarshalJSON_roundtrip ⟨0, 0, 0, 0, 0, 0, 0, 0, 0⟩
    [1594194095746, 1485369733217, -1, 3, 4, -60, 2500, 6157, 0] rfl (by decide)

/-- C2, as stated, fails: the one-element array holding 2^63 is an array of
integers whose length is not 9, and the error returned for it is the type error
of the JSON decoder, which reports no count, not the count-mismatch error. -/
theorem CardReview_UnmarshalJSON_count_counterexample :
    [JSON.num 9223372036854775808].length ≠ 9 ∧
    (CardReview.UnmarshalJSON ⟨0, 0, 0, 0, 0, 0, 0, 0, 0⟩
        (.arr [.num 9223372036854775808])).2
      = some (.unmarshalType (.num 9223372036854775808) "int64") ∧
    ∀ (format : String) (args : List FmtArg),
      (CardReview.UnmarshalJSON ⟨0, 0, 0, 0, 0, 0, 0, 0, 0⟩
        (.arr [.num 9223372036854775808])).2 ≠ some (.errorf format args) := by
  have h : (CardReview.UnmarshalJSON ⟨0, 0, 0, 0, 0, 0, 0, 0, 0⟩
        (.arr [.num 9223372036854775808])).2
      = some (.unmarshalType (.num 9223372036854775808) "int64") := rfl
  refine ⟨by decide, h, ?_⟩
  intro format args hc
  rw [h] at hc
  cases hc

/-- C2, amended: for every array of integers in `int64` range whose length is
not 9 (the empty array included) `CardReview.UnmarshalJSON` returns the
count-mismatch error, which carries the actual count next to the expected 9,
and the destination record is what it was before the call. -/
theorem CardReview_UnmarshalJSON_wrong_count (r : CardReview) (xs : List Int)
    (hrange : ∀ x ∈ xs, inInt64 x) (hlen : xs.length ≠ 9) :
    CardReview.UnmarshalJSON r (.arr (xs.map JSON.num))
      = (r, some (.errorf "unexpected number of fields in card review: got %d, expected 9"
          [.int xs.length])) := by
  unfold CardReview.UnmarshalJSON
  rw [unmarshalInt64Slice_nums _ hrange]
  simp only [hlen, ne_eq, not_false_eq_true, dite_true]

/-- The five-element array of the test `notEnoughFields`. -/
theorem CardReview_UnmarshalJSON_wrong_count_witness :
    CardReview.UnmarshalJSON ⟨7, 7, 7, 7, 7, 7, 7, 7, 7⟩ (.arr ([0, 1, 2, 3, 4].map JSON.num))
      = (⟨7, 7, 7, 7, 7, 7, 7, 7, 7⟩,
         some (.errorf "unexpected number of fields in card review: got %d, expected 9"
          [.int ([0, 1, 2, 3, 4] : List Int).length])) :=
  CardReview_UnmarshalJSON_wrong_count ⟨7, 7, 7, 7, 7, 7, 7, 7, 7⟩ [0, 1, 2, 3, 4]
    (by decide) (by decide)

/-! ## The cards manager -/

/-- C6: whatever the far end does, if it answers the `findCards` invocation of
the query with an error `e` (with or without a result next to it), `Get` and
`GetReviews` both return a nil result with `e` itself, and the invocations
issued are those issued before followed by that single `findCards`
invocation. -/
theorem search_error_returned_verbatim {σ F : Type} (findCards : Transport σ (Slice Int))
    (cardsInfo : Transport σ (List (ResultCardsInfo F)))
    (getReviewsOfCards : Transport σ ResultGetReviews) (cm : Client σ) (query : String)
    (res : Option (Slice Int)) (e : RestErr) (s1 : σ)
    (hfail : findCards ⟨"findCards", some (.findCards ⟨query⟩)⟩ cm.server = ((res, some e), s1)) :
    cardsManager.Get findCards cardsInfo cm query
      = ((none, some e), ⟨s1, cm.sent ++ [⟨"findCards", some (.findCards ⟨query⟩)⟩]⟩) ∧
    cardsManager.GetReviews findCards getReviewsOfCards cm query
      = ((none, some e), ⟨s1, cm.sent ++ [⟨"findCards", some (.findCards ⟨query⟩)⟩]⟩) := by
  constructor
  · simp only [cardsManager.Get, cardsManager.Search, post, ActionFindCards, hfail]
  · simp only [cardsManager.GetReviews, cardsManager.Search, post, ActionFindCards, hfail]

/-- A far end that refuses every search with "some error message", as in the
tests `errorFailSearch`. -/
theorem search_error_returned_verbatim_witness :
    cardsManager.Get (fun _ (n : Nat) => ((none, some ⟨"some error message", 400, "bad_request"⟩), n + 1))
        (fun _ n => ((some ([] : List (ResultCardsInfo Unit)), none), n + 1)) ⟨0, []⟩ "deck:current"
      = ((none, some ⟨"some error message", 400, "bad_request"⟩),
         ⟨1, [] ++ [⟨"findCards", some (.findCards ⟨"deck:current"⟩)⟩]⟩) ∧
    cardsManager.GetReviews (fun _ (n : Nat) => ((none, some ⟨"some error message", 400, "bad_request"⟩), n + 1))
        (fun _ n => ((some GoMap.empty, none), n + 1)) ⟨0, []⟩ "deck:current"
      = ((none, some ⟨"some error message", 400, "bad_request"⟩),
         ⟨1, [] ++ [⟨"findCards", some (.findCards ⟨"deck:current"⟩)⟩]⟩) :=
  search_error_returned_verbatim
    (fun _ (n : Nat) => ((none, some ⟨"some error message", 400, "bad_request"⟩), n + 1))
    (fun _ n => ((some ([] : List (ResultCardsInfo Unit)), none), n + 1))
    (fun _ n => ((some GoMap.empty, none), n + 1)) ⟨0, []⟩ "deck:current" none
    ⟨"some error message", 400, "bad_request"⟩ 1 rfl

/-- C7: whatever the far end does, if it answers the `findCards` invocation of
the query with the id sequence `ids` and no error, `Get` (and `GetReviews`)
issues exactly one more invocation, with action `cardsInfo` (and
`getReviewsOfCards`) and `ids` itself as the `cards` parameter, and returns
what the far end answers to it, result and error alike. The parameter is
serialised as the array of the ids in their order, and as `null` when the
search answered with a nil slice. When `cardsInfo` is answered with a list of
records and no error, `Get` returns that very list. -/
theorem search_then_fetch {σ F : Type} (findCards : Transport σ (Slice Int))
    (cardsInfo : Transport σ (List (ResultCardsInfo F)))
    (getReviewsOfCards : Transport σ ResultGetReviews) (cm : Client σ) (query : String)
    (ids : Slice Int) (s1 : σ)
    (hok : findCards ⟨"findCards", some (.findCards ⟨query⟩)⟩ cm.server = ((some ids, none), s1)) :
    cardsManager.Get findCards cardsInfo cm query
      = ((cardsInfo ⟨"cardsInfo", some (.cardsInfo ⟨some ids⟩)⟩ s1).1,
         ⟨(cardsInfo ⟨"cardsInfo", some (.cardsInfo ⟨some ids⟩)⟩ s1).2,
          cm.sent ++ [⟨"findCards", some (.findCards ⟨query⟩)⟩] ++
            [⟨"cardsInfo", some (.cardsInfo ⟨some ids⟩)⟩]⟩) ∧
    cardsManager.GetReviews findCards getReviewsOfCards cm query
      = ((getReviewsOfCards ⟨"getReviewsOfCards", some (.cardsInfo ⟨some ids⟩)⟩ s1).1,
         ⟨(getReviewsOfCards ⟨"getReviewsOfCards", some (.cardsInfo ⟨some ids⟩)⟩ s1).2,
          cm.sent ++ [⟨"findCards", some (.findCards ⟨query⟩)⟩] ++
            [⟨"getReviewsOfCards", some (.cardsInfo ⟨some ids⟩)⟩]⟩) ∧
    (∀ elems : List Int, ids = .mk elems →
      Invocation.serialisedParams ⟨"cardsInfo", some (.cardsInfo ⟨some ids⟩)⟩
        = some (.obj [("cards", .arr (elems.map JSON.num))])) ∧
    (ids = .nil →
      Invocation.serialisedParams ⟨"cardsInfo", some (.cardsInfo ⟨some ids⟩)⟩
        = some (.obj [("cards", .null)])) ∧
    (∀ (records : List (ResultCardsInfo F)) (s2 : σ),
      cardsInfo ⟨"cardsInfo", some (.cardsInfo ⟨some ids⟩)⟩ s1 = ((some records, none), s2) →
      (cardsManager.Get findCards cardsInfo cm query).1 = (some records, none)) := by
  have hGet : cardsManager.Get findCards cardsInfo cm query
      = ((cardsInfo ⟨"cardsInfo", some (.cardsInfo ⟨some ids⟩)⟩ s1).1,
         ⟨(cardsInfo ⟨"cardsInfo", some (.cardsInfo ⟨some ids⟩)⟩ s1).2,
          cm.sent ++ [⟨"findCards", some (.findCards ⟨query⟩)⟩] ++
            [⟨"cardsInfo", some (.cardsInfo ⟨some ids⟩)⟩]⟩) := by
    simp only [cardsManager.Get, cardsManager.Search, post, ActionFindCards, ActionCardsInfo, hok]
  refine ⟨hGet, ?_, ?_, ?_, ?_⟩
  · simp only [cardsManager.GetReviews, cardsManager.Search, post, ActionFindCards,
      ActionGetReviewsOfCards, hok]
  · intro elems helems
    rw [helems]
    rfl
  · intro hnil
    rw [hnil]
    rfl
  · intro records s2 hrec
    rw [hGet, hrec]

/-- The two ids of the test `TestCardsManager_Get/success`, with a far end that
counts the invocations it receives. -/
theorem search_then_fetch_witness :
    cardsManager.Get
        (fun _ (n : Nat) => ((some (.mk [1498938915662, 1502098034048]), none), n + 1))
        (fun _ n => ((some ([] : List (ResultCardsInfo Unit)), none), n + 1)) ⟨0, []⟩ "deck:current"
      = ((some [], none),
         ⟨2, [] ++ [⟨"findCards", some (.findCards ⟨"deck:current"⟩)⟩] ++
            [⟨"cardsInfo", some (.cardsInfo ⟨some (.mk [1498938915662, 1502098034048])⟩)⟩]⟩) ∧
    Invocation.serialisedParams
        ⟨"cardsInfo", some (.cardsInfo ⟨some (.mk [1498938915662, 1502098034048])⟩)⟩
      = some (.obj [("cards", .arr ([1498938915662, 1502098034048].map JSON.num))]) :=
  have h := search_then_fetch
    (fun _ (n : Nat) => ((some (.mk [1498938915662, 1502098034048]), none), n + 1))
    (fun _ n => ((some ([] : List (ResultCardsInfo Unit)), none), n + 1))
    (fun _ n => ((some GoMap.empty, none), n + 1)) ⟨0, []⟩ "deck:current"
    (.mk [1498938915662, 1502098034048]) 1 rfl
  ⟨h.1, h.2.2.1 [1498938915662, 1502098034048] rfl⟩

/-! ## The decks manager -/

/-- C9: whatever the far end does, `Delete(name)` issues exactly one
invocation, with action `deleteDecks` and parameters that serialise to the
object with `decks` = the one-element list holding `name` and `cardsToo` =
true, and it returns the error part of the answer to that invocation: nil when
there is none, the error itself otherwise. -/
theorem Delete_single_invocation {σ : Type} (deleteDecks : Transport σ String) (dm : Client σ)
    (name : String) :
    decksManager.Delete deleteDecks dm name
      = ((deleteDecks ⟨"deleteDecks", some (.deleteDecks ⟨some (.mk [name]), true⟩)⟩ dm.server).1.2,
         ⟨(deleteDecks ⟨"deleteDecks", some (.deleteDecks ⟨some (.mk [name]), true⟩)⟩ dm.server).2,
          dm.sent ++ [⟨"deleteDecks", some (.deleteDecks ⟨some (.mk [name]), true⟩)⟩]⟩) ∧
    Invocation.serialisedParams ⟨"deleteDecks", some (.deleteDecks ⟨some (.mk [name]), true⟩)⟩
      = some (.obj [("decks", .arr [.str name]), ("cardsToo", .bool true)]) := by
  refine ⟨?_, rfl⟩
  rcases hans : deleteDecks ⟨"deleteDecks", some (.deleteDecks ⟨some (.mk [name]), true⟩)⟩ dm.server
    with ⟨⟨result, restErr⟩, s1⟩
  cases restErr <;> simp only [decksManager.Delete, post, ActionDeleteDecks, hans]

/-- Truncating division and remainder by 1000 in terms of the flooring ones. -/
theorem tdiv_tmod_thousand (m : Int) :
    (0 ≤ m ∧ Int.tdiv m 1000 = m / 1000 ∧ Int.tmod m 1000 = m % 1000) ∨
    (m < 0 ∧ Int.tdiv m 1000 = -((-m) / 1000) ∧ Int.tmod m 1000 = -((-m) % 1000)) := by
  rcases lt_or_le m 0 with hneg | hpos
  · right
    have hdiv : Int.tdiv m 1000 = -((-m) / 1000) := by
      have h1 : Int.tdiv (-(-m)) 1000 = -(Int.tdiv (-m) 1000) := Int.neg_tdiv (-m) 1000
      rw [Int.neg_neg] at h1
      rw [h1, Int.tdiv_eq_ediv (by omega) (by omega)]
    refine ⟨hneg, hdiv, ?_⟩
    rw [Int.tmod_def, hdiv]
    omega
  · left
    exact ⟨hpos, Int.tdiv_eq_ediv hpos (by omega), Int.tmod_eq_emod hpos (by omega)⟩

/-- Inside the `int64` range the wrap-around changes nothing. -/
theorem wrapInt64_of_inInt64 (n : Int) (h : inInt64 n) : wrapInt64 n = n := by
  unfold inInt64 at h
  unfold wrapInt64
  omega

/-- For a valid time whose millisecond count fits in `int64`, the method
`UnixMilli` returns that count. -/
theorem Time_UnixMilli_eq_millis (t : time.Time) (hvalid : t.valid)
    (hfits : inInt64 t.millisSinceEpoch) : t.UnixMilli = t.millisSinceEpoch := by
  obtain ⟨-, hlo, hhi⟩ := hvalid
  have hdiv : Int.tdiv t.nsec 1000000 = t.nsec / 1000000 := Int.tdiv_eq_ediv hlo (by omega)
  have hsum : t.unixSec * 1000 + Int.tdiv t.nsec 1000000 = t.millisSinceEpoch := by
    rw [hdiv]
    unfold time.Time.millisSinceEpoch
    omega
  unfold time.Time.UnixMilli
  rw [hsum]
  exact wrapInt64_of_inInt64 _ hfits

/-- The time `time.UnixMilli(m)` of an `int64` is valid and lies `m`
milliseconds from the epoch. -/
theorem UnixMilli_millis (m : Int) (hm : inInt64 m) :
    (time.UnixMilli m).valid ∧ (time.UnixMilli m).millisSinceEpoch = m := by
  unfold inInt64 at hm
  unfold time.UnixMilli time.Unix
  rcases tdiv_tmod_thousand m with ⟨hpos, hdiv, hmod⟩ | ⟨hneg, hdiv, hmod⟩
  · rw [hdiv, hmod]
    have hnot : ¬ (m % 1000 * 1000000 < 0 ∨ m % 1000 * 1000000 ≥ 1000000000) := by omega
    rw [if_neg hnot]
    unfold time.Time.valid time.Time.millisSinceEpoch inInt64
    simp only
    omega
  · rw [hdiv, hmod]
    by_cases hzero : (-m) % 1000 = 0
    · have hnot : ¬ (-((-m) % 1000) * 1000000 < 0 ∨ -((-m) % 1000) * 1000000 ≥ 1000000000) := by
        omega
      rw [if_neg hnot]
      unfold time.Time.valid time.Time.millisSinceEpoch inInt64
      simp only
      omega
    · have hyes : -((-m) % 1000) * 1000000 < 0 ∨ -((-m) % 1000) * 1000000 ≥ 1000000000 := by
        omega
      have hcarry : Int.tdiv (-((-m) % 1000) * 1000000) 1000000000 = 0 := by
        have h1 : -((-m) % 1000) * 1000000 = -(((-m) % 1000) * 1000000) := by omega
        rw [h1, Int.neg_tdiv, Int.tdiv_eq_ediv (by omega) (by omega)]
        omega
      rw [if_pos hyes, hcarry]
      have hlt : -((-m) % 1000) * 1000000 - 0 * 1000000000 < 0 := by omega
      simp only [hlt, if_true]
      unfold time.Time.valid time.Time.millisSinceEpoch inInt64 wrapInt64
      simp only
      omega

/-- C8, as stated, fails in two places. With the empty deck name the
serialised parameters of the invocation hold the key `startID` alone, the tag
`deck,omitempty` leaving `deck` out. And for the valid time 2^62 seconds after
the epoch, which lies 2^62 * 1000 milliseconds from it, the `startID` sent is
0, the product having wrapped around in `int64`. -/
theorem GetReviewsAfter_params_counterexample :
    ((decksManager.GetReviewsAfter (fun _ (n : Nat) => ((none, none), n + 1)) ⟨0, []⟩ ""
        (time.UnixMilli 1594194095740)).2.sent.map Invocation.serialisedParams
      = [some (.obj [("startID", .num 1594194095740)])]) ∧
    (time.Time.valid ⟨4611686018427387904, 0⟩ ∧
     time.Time.millisSinceEpoch ⟨4611686018427387904, 0⟩ = 4611686018427387904000 ∧
     (decksManager.GetReviewsAfter (fun _ (n : Nat) => ((none, none), n + 1)) ⟨0, []⟩ "default"
        ⟨4611686018427387904, 0⟩).2.sent.map Invocation.serialisedParams
      = [some (.obj [("deck", .str "default"), ("startID", .num 0)])]) := by
  refine ⟨rfl, by decide, by decide, rfl⟩

/-- C8, amended: whatever the far end does, for every deck name other than the
empty string and every valid start time whose millisecond count since the Unix
epoch fits in `int64`, `GetReviewsAfter` issues exactly one invocation, with
action `cardReviews` and parameters that serialise to the object with the two
keys `deck` = the name and `startID` = that millisecond count; and for every
`int64` value `m` the start time `time.UnixMilli(m)` makes the `startID` sent
equal to `m`. -/
theorem GetReviewsAfter_single_invocation {σ : Type}
    (cardReviews : Transport σ ResultCardReviews) (dm : Client σ) (name : String)
    (startTime : time.Time) (hname : name ≠ "") (hvalid : startTime.valid)
    (hfits : inInt64 startTime.millisSinceEpoch) :
    (decksManager.GetReviewsAfter cardReviews dm name startTime).2.sent
      = dm.sent ++ [⟨"cardReviews", some (.cardReviews ⟨name, startTime.millisSinceEpoch⟩)⟩] ∧
    Invocation.serialisedParams
        ⟨"cardReviews", some (.cardReviews ⟨name, startTime.millisSinceEpoch⟩)⟩
      = some (.obj [("deck", .str name), ("startID", .num startTime.millisSinceEpoch)]) ∧
    ∀ m : Int, inInt64 m →
      (decksManager.GetReviewsAfter cardReviews dm name (time.UnixMilli m)).2.sent
        = dm.sent ++ [⟨"cardReviews", some (.cardReviews ⟨name, m⟩)⟩] := by
  have sent_eq : ∀ t : time.Time,
      (decksManager.GetReviewsAfter cardReviews dm name t).2.sent
        = dm.sent ++ [⟨"cardReviews", some (.cardReviews ⟨name, t.UnixMilli⟩)⟩] := by
    intro t
    rcases hans : cardReviews ⟨"cardReviews", some (.cardReviews ⟨name, t.UnixMilli⟩)⟩ dm.server
      with ⟨⟨result, restErr⟩, s1⟩
    cases restErr <;> simp only [decksManager.GetReviewsAfter, post, ActionCardReviews, hans]
  refine ⟨?_, ?_, ?_⟩
  · rw [sent_eq, Time_UnixMilli_eq_millis startTime hvalid hfits]
  · simp only [Invocation.serialisedParams, Option.map_some', Params.marshal,
      ParamsCardReviews.marshal, hname, if_false, List.nil_append]
    rfl
  · intro m hm
    obtain ⟨hv, hmillis⟩ := UnixMilli_millis m hm
    rw [sent_eq, Time_UnixMilli_eq_millis _ hv (by rw [hmillis]; exact hm), hmillis]

/-- The deck name and the start time of the test
`TestDecksManagerGetReviews/success`. -/
theorem GetReviewsAfter_single_invocation_witness :
    (decksManager.GetReviewsAfter (fun _ (n : Nat) => ((some [], none), n + 1)) ⟨0, []⟩ "default"
        ⟨1594194095, 740000000⟩).2.sent
      = [] ++ [⟨"cardReviews", some (.cardReviews ⟨"default", 1594194095740⟩)⟩] ∧
    Invocation.serialisedParams ⟨"cardReviews", some (.cardReviews ⟨"default", 1594194095740⟩)⟩
      = some (.obj [("deck", .str "default"), ("startID", .num 1594194095740)]) :=
  have h := GetReviewsAfter_single_invocation (fun _ (n : Nat) => ((some [], none), n + 1))
    ⟨0, []⟩ "default" ⟨1594194095, 740000000⟩ (by decide) (by decide) (by decide)
  ⟨h.1, h.2.1⟩

/-! ## Go maps: assignment and index -/

section GoMapLemmas

variable {κ ν : Type} [DecidableEq κ]

/-- The keys after `m[k] = v`. -/
theorem GoMap.keys_store (m : GoMap κ ν) (k : κ) (v : ν) :
    (m.store k v).keys = k :: m.keys.filter (fun x => decide (x ≠ k)) := by
  simp only [GoMap.store, GoMap.keys, List.map_cons, List.filter_map]
  rfl

/-- A key is present after `m[k] = v` exactly when it is `k` or was present. -/
theorem GoMap.mem_keys_store (m : GoMap κ ν) (k : κ) (v : ν) (x : κ) :
    x ∈ (m.store k v).keys ↔ x = k ∨ x ∈ m.keys := by
  rw [GoMap.keys_store]
  simp only [List.mem_cons, List.mem_filter, decide_eq_true_eq]
  constructor
  · rintro (h | ⟨h, -⟩)
    · exact Or.inl h
    · exact Or.inr h
  · rintro (h | h)
    · exact Or.inl h
    · by_cases hx : x = k
      · exact Or.inl hx
      · exact Or.inr ⟨h, hx⟩

/-- Assignment keeps the keys free of repetition. -/
theorem GoMap.nodup_keys_store (m : GoMap κ ν) (k : κ) (v : ν) (h : m.keys.Nodup) :
    (m.store k v).keys.Nodup := by
  rw [GoMap.keys_store]
  refine List.nodup_cons.mpr ⟨?_, h.filter _⟩
  simp only [List.mem_filter, decide_eq_true_eq, ne_eq, not_true_eq_false, and_false,
    not_false_eq_true]

/-- Assignment under a key that is absent adds one entry in front. -/
theorem GoMap.store_fresh (m : GoMap κ ν) (k : κ) (v : ν) (h : k ∉ m.keys) :
    (m.store k v).entries = (k, v) :: m.entries := by
  simp only [GoMap.store, List.cons.injEq, true_and]
  apply List.filter_eq_self.mpr
  intro e he
  simp only [ne_eq, decide_eq_true_eq]
  intro hk
  exact h (by rw [← hk]; exact List.mem_map_of_mem Prod.fst he)

/-- A run of assignments under keys that are distinct and absent from the map
puts the entries in front of the map, last one first. -/
theorem GoMap.foldl_store_fresh (l : List (κ × ν)) (m : GoMap κ ν)
    (hnodup : (l.map Prod.fst).Nodup) (hfresh : ∀ k ∈ l.map Prod.fst, k ∉ m.keys) :
    (l.foldl (fun t e => t.store e.1 e.2) m).entries = l.reverse ++ m.entries := by
  induction l generalizing m with
  | nil => rfl
  | cons e rest ih =>
    rw [List.map_cons, List.nodup_cons] at hnodup
    have he : e.1 ∉ m.keys := hfresh e.1 (by simp)
    have hrest : ∀ k ∈ rest.map Prod.fst, k ∉ (m.store e.1 e.2).keys := by
      intro k hk hmem
      rcases (GoMap.mem_keys_store m e.1 e.2 k).mp hmem with h | h
      · exact hnodup.1 (h ▸ hk)
      · exact hfresh k (by simp only [List.map_cons, List.mem_cons]; exact Or.inr hk) h
    rw [List.foldl_cons, ih _ hnodup.2 hrest, GoMap.store_fresh m e.1 e.2 he]
    simp

/-- A run of assignments keeps the keys free of repetition. -/
theorem GoMap.nodup_keys_foldl_store (l : List (κ × ν)) (m : GoMap κ ν) (h : m.keys.Nodup) :
    (l.foldl (fun t e => t.store e.1 e.2) m).keys.Nodup := by
  induction l generalizing m with
  | nil => exact h
  | cons e rest ih => exact ih _ (GoMap.nodup_keys_store m e.1 e.2 h)

/-- The keys after a run of assignments are those assigned and those present
before. -/
theorem GoMap.mem_keys_foldl_store (l : List (κ × ν)) (m : GoMap κ ν) (x : κ) :
    x ∈ (l.foldl (fun t e => t.store e.1 e.2) m).keys ↔ x ∈ l.map Prod.fst ∨ x ∈ m.keys := by
  induction l generalizing m with
  | nil => simp
  | cons e rest ih =>
    rw [List.foldl_cons, ih, GoMap.mem_keys_store]
    simp only [List.map_cons, List.mem_cons]
    tauto

/-- A key that heads no entry is not found. -/
theorem GoMap.find_eq_none (k : κ) (l : List (κ × ν)) (h : k ∉ l.map Prod.fst) :
    GoMap.find k l = none := by
  induction l with
  | nil => rfl
  | cons e rest ih =>
    simp only [List.map_cons, List.mem_cons, not_or] at h
    simp only [GoMap.find, if_neg (Ne.symm h.1)]
    exact ih h.2

/-- With keys free of repetition, an entry of the list is the one found under
its key. -/
theorem GoMap.find_of_mem (k : κ) (v : ν) (l : List (κ × ν)) (hnodup : (l.map Prod.fst).Nodup)
    (h : (k, v) ∈ l) : GoMap.find k l = some v := by
  induction l with
  | nil => cases h
  | cons e rest ih =>
    rw [List.map_cons, List.nodup_cons] at hnodup
    rcases List.mem_cons.mp h with heq | hmem
    · subst heq
      simp [GoMap.find]
    · have hne : e.1 ≠ k := by
        intro hk
        exact hnodup.1 (hk ▸ List.mem_map_of_mem Prod.fst hmem)
      simp only [GoMap.find, if_neg hne]
      exact ih hnodup.2 hmem

/-- What is found under a key is an entry of the list. -/
theorem GoMap.mem_of_find (k : κ) (v : ν) (l : List (κ × ν)) (h : GoMap.find k l = some v) :
    (k, v) ∈ l := by
  induction l with
  | nil => cases h
  | cons e rest ih =>
    by_cases hk : e.1 = k
    · simp only [GoMap.find, if_pos hk, Option.some.injEq] at h
      rw [← hk, ← h]
      exact List.mem_cons_self _ _
    · simp only [GoMap.find, if_neg hk] at h
      exact List.mem_cons_of_mem _ (ih h)

/-- Two lists with the same entries and keys free of repetition answer every
index alike. -/
theorem GoMap.find_perm (k : κ) (l1 l2 : List (κ × ν)) (hperm : l1.Perm l2)
    (hnodup : (l1.map Prod.fst).Nodup) : GoMap.find k l1 = GoMap.find k l2 := by
  have hnodup2 : (l2.map Prod.fst).Nodup := (hperm.map Prod.fst).nodup_iff.mp hnodup
  cases hfind : GoMap.find k l1 with
  | none =>
    have hnot : k ∉ l2.map Prod.fst := by
      intro hmem
      obtain ⟨e, he, hk⟩ := List.mem_map.mp hmem
      have he1 : (k, e.2) ∈ l1 := by
        rw [← hk]
        exact hperm.mem_iff.mpr he
      rw [GoMap.find_of_mem k e.2 l1 hnodup he1] at hfind
      cases hfind
    exact (GoMap.find_eq_none k l2 hnot).symm
  | some v =>
    have hmem : (k, v) ∈ l2 := hperm.mem_iff.mp (GoMap.mem_of_find k v l1 hfind)
    exact (GoMap.find_of_mem k v l2 hnodup2 hmem).symm

end GoMapLemmas

/-! ## The mapping-keyed review decoder: the two loops -/

/-- When every value decodes, storing the members is a run of map assignments
of the decoded values. -/
theorem storeMembers_eq_foldl (members : List (String × JSON))
    (tmp : GoMap String (List ReviewData))
    (h : ∀ kv ∈ members, ∃ l, json.unmarshalReviewSlice kv.2 = .ok l) :
    json.storeMembers tmp members
      = .ok ((members.map (fun kv => (kv.1, reviewsOf kv.2))).foldl
          (fun t e => t.store e.1 e.2) tmp) := by
  induction members generalizing tmp with
  | nil => rfl
  | cons kv rest ih =>
    obtain ⟨l, hl⟩ := h kv (List.mem_cons_self _ _)
    have hrest := ih (tmp.store kv.1 l) (fun x hx => h x (List.mem_cons_of_mem _ hx))
    simp only [json.storeMembers, hl, hrest, List.map_cons, List.foldl_cons, reviewsOf]

/-- When storing the members succeeds, every value has decoded. -/
theorem storeMembers_ok_values (members : List (String × JSON))
    (tmp t : GoMap String (List ReviewData)) (h : json.storeMembers tmp members = .ok t) :
    ∀ kv ∈ members, ∃ l, json.unmarshalReviewSlice kv.2 = .ok l := by
  induction members generalizing tmp with
  | nil => intro kv hkv; cases hkv
  | cons kv0 rest ih =>
    intro kv hkv
    cases hdec : json.unmarshalReviewSlice kv0.2 with
    | error err =>
      simp only [json.storeMembers, hdec] at h
      cases h
    | ok l =>
      simp only [json.storeMembers, hdec] at h
      rcases List.mem_cons.mp hkv with heq | hmem
      · exact ⟨l, heq ▸ hdec⟩
      · exact ih _ h kv hmem

/-- When every key visited parses, the loop is a run of map assignments under
the integers the keys denote, and it returns no error. -/
theorem rangeLoop_eq_foldl (l : List (String × List ReviewData)) (m : ResultGetReviews)
    (h : ∀ kv ∈ l, ∃ i, strconv.ParseInt kv.1 = .ok i) :
    ResultGetReviews.rangeLoop m l
      = ((l.map (fun kv => (keyValue kv.1, kv.2))).foldl (fun t e => t.store e.1 e.2) m,
         none) := by
  induction l generalizing m with
  | nil => rfl
  | cons kv rest ih =>
    obtain ⟨i, hi⟩ := h kv (List.mem_cons_self _ _)
    have hrest := ih (m.store i kv.2) (fun x hx => h x (List.mem_cons_of_mem _ hx))
    simp only [ResultGetReviews.rangeLoop, hi, hrest, List.map_cons, List.foldl_cons, keyValue]

/-- When the loop returns no error, every key visited has parsed. -/
theorem rangeLoop_ok_keys (l : List (String × List ReviewData)) (m r : ResultGetReviews)
    (h : ResultGetReviews.rangeLoop m l = (r, none)) :
    ∀ kv ∈ l, ∃ i, strconv.ParseInt kv.1 = .ok i := by
  induction l generalizing m with
  | nil => intro kv hkv; cases hkv
  | cons kv0 rest ih =>
    intro kv hkv
    cases hparse : strconv.ParseInt kv0.1 with
    | error err =>
      simp only [ResultGetReviews.rangeLoop, hparse, Prod.mk.injEq] at h
      cases h.2
    | ok i =>
      simp only [ResultGetReviews.rangeLoop, hparse] at h
      rcases List.mem_cons.mp hkv with heq | hmem
      · exact ⟨i, heq ▸ hparse⟩
      · exact ih _ h kv hmem

/-- When some key visited does not parse, the loop returns the error of the
first such key in the order of the visit. -/
theorem rangeLoop_bad_key (l : List (String × List ReviewData)) (m : ResultGetReviews)
    (h : ∃ kv ∈ l, ∀ i, strconv.ParseInt kv.1 ≠ .ok i) :
    ∃ (r : ResultGetReviews) (k : String) (e : strconv.NumError),
      ResultGetReviews.rangeLoop m l
        = (r, some (.errorf "invalid key %q: %s" [.str k, .numError e])) ∧
      k ∈ l.map Prod.fst ∧ strconv.ParseInt k = .error e := by
  induction l generalizing m with
  | nil =>
    obtain ⟨kv, hkv, -⟩ := h
    cases hkv
  | cons kv0 rest ih =>
    cases hparse : strconv.ParseInt kv0.1 with
    | error err =>
      refine ⟨m, kv0.1, err, ?_, by simp, hparse⟩
      simp only [ResultGetReviews.rangeLoop, hparse]
    | ok i =>
      have hrest : ∃ kv ∈ rest, ∀ j, strconv.ParseInt kv.1 ≠ .ok j := by
        obtain ⟨kv, hkv, hbad⟩ := h
        rcases List.mem_cons.mp hkv with heq | hmem
        · exact absurd (heq ▸ hparse) (hbad i)
        · exact ⟨kv, hmem, hbad⟩
      obtain ⟨r, k, e, hrun, hk, he⟩ := ih (m.store i kv0.2) hrest
      refine ⟨r, k, e, ?_, List.mem_cons_of_mem _ hk, he⟩
      simp only [ResultGetReviews.rangeLoop, hparse, hrun]

/-- A well-formed array of review entries decodes, item by item and in order,
into a list of the same length. -/
theorem isReviewArray_decodes (v : JSON) (h : isReviewArray v = true) :
    ∃ (items : List JSON) (reviews : List ReviewData), v = .arr items ∧
      json.unmarshalReviewSlice v = .ok reviews ∧
      List.Forall₂ (fun item e => json.unmarshalReviewData item = .ok e) items reviews := by
  cases v with
  | arr items =>
    have key : ∀ its : List JSON,
        its.all (fun item => (json.unmarshalReviewData item).toBool) = true →
        ∃ reviews : List ReviewData, its.mapM json.unmarshalReviewData = .ok reviews ∧
          List.Forall₂ (fun item e => json.unmarshalReviewData item = .ok e) its reviews := by
      intro its
      induction its with
      | nil => intro _; exact ⟨[], rfl, List.Forall₂.nil⟩
      | cons item rest ih =>
        intro hall
        rw [List.all_cons, Bool.and_eq_true] at hall
        obtain ⟨reviews, hmap, hforall⟩ := ih hall.2
        cases hitem : json.unmarshalReviewData item with
        | error err =>
          rw [hitem] at hall
          exact absurd hall.1 (by simp [Except.toBool])
        | ok e =>
          refine ⟨e :: reviews, ?_, List.Forall₂.cons hitem hforall⟩
          simp only [List.mapM_cons, hitem, hmap]
          rfl
    obtain ⟨reviews, hmap, hforall⟩ := key items h
    exact ⟨items, reviews, rfl, by simpa [json.unmarshalReviewSlice] using hmap, hforall⟩
  | null => cases h
  | bool b => cases h
  | num n => cases h
  | real lit => cases h
  | str s => cases h
  | obj members => cases h

/-- The digit loop succeeds on decimal digits only. -/
theorem parseUintLoop_ok_digits (cs : List Char) (n r : Nat)
    (h : strconv.parseUintLoop n cs = .ok r) :
    cs.all (fun d => decide (48 ≤ d.toNat ∧ d.toNat ≤ 57)) = true := by
  induction cs generalizing n with
  | nil => rfl
  | cons c rest ih =>
    unfold strconv.parseUintLoop at h
    by_cases hdigit : 48 ≤ c.toNat ∧ c.toNat ≤ 57
    · rw [if_neg (not_not.mpr hdigit)] at h
      split at h
      · cases h
      · simp only at h
        split at h
        · cases h
        · rw [List.all_cons, Bool.and_eq_true]
          exact ⟨decide_eq_true hdigit, ih _ h⟩
    · rw [if_pos hdigit] at h
      cases h

/-- A string that `strconv.ParseInt` accepts is a decimal-integer string. -/
theorem ParseInt_ok_isDecimal (s : String) (i : Int) (h : strconv.ParseInt s = .ok i) :
    isDecimalIntegerString s = true := by
  unfold strconv.ParseInt at h
  unfold isDecimalIntegerString
  cases hs : s.toList with
  | nil =>
    rw [hs] at h
    cases h
  | cons c cs =>
    rw [hs] at h
    simp only at h ⊢
    generalize (if c = '+' ∨ c = '-' then cs else c :: cs) = rest at h ⊢
    cases hu : strconv.ParseUint10 rest with
    | error cause =>
      rw [hu] at h
      cases cause <;> cases h
    | ok un =>
      cases rest with
      | nil => cases hu
      | cons d ds =>
        have hdigits := parseUintLoop_ok_digits (d :: ds) 0 un hu
        simp only [List.isEmpty_cons, Bool.not_false, Bool.true_and]
        exact hdigits

/-- A key that is not a decimal-integer string does not parse. -/
theorem ParseInt_not_decimal (s : String) (h : isDecimalIntegerString s = false) :
    ∀ i, strconv.ParseInt s ≠ .ok i := by
  intro i hi
  rw [ParseInt_ok_isDecimal s i hi] at h
  cases h

/-! ## The mapping-keyed review decoder: the claims -/

/-- When every key visited parses and the integers they denote are distinct,
the loop run on the empty map leaves one entry per key visited. -/
theorem rangeLoop_distinct (l : List (String × List ReviewData))
    (hparse : ∀ kv ∈ l, ∃ i, strconv.ParseInt kv.1 = .ok i)
    (hnodup : (l.map (fun kv => keyValue kv.1)).Nodup) :
    ResultGetReviews.rangeLoop GoMap.empty l
      = (⟨(l.map (fun kv => (keyValue kv.1, kv.2))).reverse⟩, none) := by
  rw [rangeLoop_eq_foldl l _ hparse]
  have hkeys : ((l.map (fun kv => (keyValue kv.1, kv.2))).map Prod.fst).Nodup := by
    rw [List.map_map]
    exact hnodup
  have hentries := GoMap.foldl_store_fresh (l.map (fun kv => (keyValue kv.1, kv.2)))
    (GoMap.empty : ResultGetReviews) hkeys (by intro k _ hk; cases hk)
  have hempty : (GoMap.empty : ResultGetReviews).entries = [] := rfl
  rw [hempty, List.append_nil] at hentries
  rw [← hentries]

/-- C3, as stated, fails in two places. The object with the keys "1" and "01",
both decimal-integer strings with well-formed values, decodes without error
into a mapping of one entry, not two, whichever way the two keys are visited.
And the object whose one key is "9223372036854775808", a decimal-integer
string, does not decode: the key is out of range for `strconv.ParseInt`. -/
theorem ResultGetReviews_UnmarshalJSON_keys_counterexample :
    (isDecimalIntegerString "1" = true ∧ isDecimalIntegerString "01" = true ∧
     isReviewArray (.arr [.obj [("id", .num 7)]]) = true ∧
     isReviewArray (.arr [.obj [("id", .num 8)]]) = true ∧
     ResultGetReviews.UnmarshalJSON id GoMap.empty
        (.obj [("1", .arr [.obj [("id", .num 7)]]), ("01", .arr [.obj [("id", .num 8)]])])
       = (⟨[(1, [⟨7, 0, 0, 0, 0, 0, 0, 0⟩])]⟩, none) ∧
     ResultGetReviews.UnmarshalJSON List.reverse GoMap.empty
        (.obj [("1", .arr [.obj [("id", .num 7)]]), ("01", .arr [.obj [("id", .num 8)]])])
       = (⟨[(1, [⟨8, 0, 0, 0, 0, 0, 0, 0⟩])]⟩, none)) ∧
    (isDecimalIntegerString "9223372036854775808" = true ∧
     ResultGetReviews.UnmarshalJSON id GoMap.empty (.obj [("9223372036854775808", .arr [])])
       = (GoMap.empty, some (.errorf "invalid key %q: %s"
           [.str "9223372036854775808",
            .numError ⟨"ParseInt", "9223372036854775808", .ErrRange⟩]))) := by
  refine ⟨⟨by decide, by decide, by decide, by decide, rfl, rfl⟩, by decide, rfl⟩

/-- C3, amended: for every JSON object whose keys all parse as base-10 64-bit
integers, no two of them denoting the same integer, and whose values are
well-formed arrays of review entries, and for every order of visit,
`ResultGetReviews.UnmarshalJSON` returns no error, the mapping it leaves has as
many entries as the object has keys, and under the integer of each key it holds
the decoding of that key's array: as many reviews as the array has items, each
decoded from the item at the same position. -/
theorem ResultGetReviews_UnmarshalJSON_distinct_keys
    (visit : List (String × List ReviewData) → List (String × List ReviewData))
    (hvisit : ∀ l, (visit l).Perm l) (m : ResultGetReviews) (members : List (String × JSON))
    (hkeys : ∀ kv ∈ members, ∃ i, strconv.ParseInt kv.1 = .ok i)
    (hdistinct : (members.map (fun kv => keyValue kv.1)).Nodup)
    (hvalues : ∀ kv ∈ members, isReviewArray kv.2 = true) :
    ∃ r : ResultGetReviews,
      ResultGetReviews.UnmarshalJSON visit m (.obj members) = (r, none) ∧
      r.len = members.length ∧
      ∀ kv ∈ members, ∃ (i : Int) (items : List JSON) (reviews : List ReviewData),
        strconv.ParseInt kv.1 = .ok i ∧ kv.2 = .arr items ∧ r.lookup i = some reviews ∧
        reviews.length = items.length ∧
        List.Forall₂ (fun item e => json.unmarshalReviewData item = .ok e) items reviews := by
  have hdecodes : ∀ kv ∈ members, ∃ l, json.unmarshalReviewSlice kv.2 = .ok l := by
    intro kv hkv
    obtain ⟨_, reviews, -, hdec, -⟩ := isReviewArray_decodes kv.2 (hvalues kv hkv)
    exact ⟨reviews, hdec⟩
  have hstrings : (members.map Prod.fst).Nodup := by
    have h2 : ((members.map Prod.fst).map keyValue).Nodup := by
      rw [List.map_map]
      exact hdistinct
    exact List.Nodup.of_map keyValue h2
  have htmp := GoMap.foldl_store_fresh (members.map (fun kv => (kv.1, reviewsOf kv.2)))
    (GoMap.empty : GoMap String (List ReviewData))
    (by rw [List.map_map]; exact hstrings) (by intro k _ hk; cases hk)
  have hempty : (GoMap.empty : GoMap String (List ReviewData)).entries = [] := rfl
  rw [hempty, List.append_nil] at htmp
  have hperm : (visit (members.map (fun kv => (kv.1, reviewsOf kv.2))).reverse).Perm
      (members.map (fun kv => (kv.1, reviewsOf kv.2))) :=
    (hvisit _).trans (List.reverse_perm _)
  have hparse : ∀ e ∈ visit (members.map (fun kv => (kv.1, reviewsOf kv.2))).reverse,
      ∃ i, strconv.ParseInt e.1 = .ok i := by
    intro e he
    obtain ⟨kv, hkv, hkve⟩ := List.mem_map.mp (hperm.mem_iff.mp he)
    rw [← hkve]
    exact hkeys kv hkv
  have hnodup : ((visit (members.map (fun kv => (kv.1, reviewsOf kv.2))).reverse).map
      (fun e => keyValue e.1)).Nodup := by
    refine ((hperm.map (fun e => keyValue e.1)).nodup_iff).mpr ?_
    rw [List.map_map]
    exact hdistinct
  refine ⟨⟨((visit (members.map (fun kv => (kv.1, reviewsOf kv.2))).reverse).map
      (fun e => (keyValue e.1, e.2))).reverse⟩, ?_, ?_, ?_⟩
  · unfold ResultGetReviews.UnmarshalJSON
    simp only [json.unmarshalReviewMap, storeMembers_eq_foldl members _ hdecodes, htmp]
    exact rangeLoop_distinct _ hparse hnodup
  · simp only [GoMap.len, List.length_reverse, List.length_map]
    rw [hperm.length_eq, List.length_map]
  · intro kv hkv
    obtain ⟨i, hi⟩ := hkeys kv hkv
    obtain ⟨items, reviews, hitems, hdec, hforall⟩ := isReviewArray_decodes kv.2 (hvalues kv hkv)
    refine ⟨i, items, reviews, hi, hitems, ?_, hforall.length_eq.symm, hforall⟩
    have hkv1 : keyValue kv.1 = i := by simp only [keyValue, hi]
    have hkv2 : reviewsOf kv.2 = reviews := by simp only [reviewsOf, hdec]
    have hmem : (i, reviews) ∈ ((visit (members.map
        (fun kv => (kv.1, reviewsOf kv.2))).reverse).map (fun e => (keyValue e.1, e.2))).reverse := by
      rw [List.mem_reverse]
      refine List.mem_map.mpr ⟨(kv.1, reviewsOf kv.2), ?_, ?_⟩
      · exact hperm.mem_iff.mpr (List.mem_map.mpr ⟨kv, hkv, rfl⟩)
      · simp only [hkv1, hkv2]
    refine GoMap.find_of_mem i reviews _ ?_ hmem
    rw [List.map_reverse, List.nodup_reverse, List.map_map]
    exact hnodup

/-- The sample object, visited last key first: both cards are stored, the first
with its two reviews in order. -/
theorem ResultGetReviews_UnmarshalJSON_distinct_keys_witness :
    ∃ r : ResultGetReviews,
      ResultGetReviews.UnmarshalJSON List.reverse GoMap.empty (.obj sampleReviewMembers)
        = (r, none) ∧
      r.len = sampleReviewMembers.length ∧
      ∀ kv ∈ sampleReviewMembers, ∃ (i : Int) (items : List JSON) (reviews : List ReviewData),
        strconv.ParseInt kv.1 = .ok i ∧ kv.2 = .arr items ∧ r.lookup i = some reviews ∧
        reviews.length = items.length ∧
        List.Forall₂ (fun item e => json.unmarshalReviewData item = .ok e) items reviews :=
  ResultGetReviews_UnmarshalJSON_distinct_keys List.reverse
    (fun l => List.reverse_perm l) GoMap.empty sampleReviewMembers
    (by
      intro kv hkv
      simp only [sampleReviewMembers, List.mem_cons, List.mem_singleton, List.not_mem_nil,
        or_false] at hkv
      rcases hkv with h | h <;> subst h <;> exact ⟨_, rfl⟩)
    (by decide) (by decide)

/-- When every value decodes and some key does not parse, the call returns the
`invalid key` error of a key of the object that does not parse. -/
theorem UnmarshalJSON_invalid_key_of_decoded
    (visit : List (String × List ReviewData) → List (String × List ReviewData))
    (hvisit : ∀ l, (visit l).Perm l) (m : ResultGetReviews) (members : List (String × JSON))
    (k0 : String) (hmem : k0 ∈ members.map Prod.fst)
    (hbad : ∀ i, strconv.ParseInt k0 ≠ .ok i)
    (hdecodes : ∀ kv ∈ members, ∃ l, json.unmarshalReviewSlice kv.2 = .ok l) :
    ∃ (r : ResultGetReviews) (k : String) (e : strconv.NumError),
      ResultGetReviews.UnmarshalJSON visit m (.obj members)
        = (r, some (.errorf "invalid key %q: %s" [.str k, .numError e])) ∧
      k ∈ members.map Prod.fst ∧ strconv.ParseInt k = .error e := by
  have hkeys : ∀ x, x ∈ ((members.map (fun kv => (kv.1, reviewsOf kv.2))).foldl
      (fun t e => t.store e.1 e.2) (GoMap.empty : GoMap String (List ReviewData))).keys ↔
      x ∈ members.map Prod.fst := by
    intro x
    rw [GoMap.mem_keys_foldl_store, List.map_map]
    constructor
    · rintro (h | h)
      · exact h
      · cases h
    · exact Or.inl
  obtain ⟨e0, he0, hk0⟩ := List.mem_map.mp ((hkeys k0).mpr hmem)
  have hvisited : ∃ kv ∈ visit ((members.map (fun kv => (kv.1, reviewsOf kv.2))).foldl
      (fun t e => t.store e.1 e.2) (GoMap.empty : GoMap String (List ReviewData))).entries,
      ∀ i, strconv.ParseInt kv.1 ≠ .ok i :=
    ⟨e0, (hvisit _).mem_iff.mpr he0, by rw [hk0]; exact hbad⟩
  obtain ⟨r, k, e, hrun, hk, he⟩ := rangeLoop_bad_key _ GoMap.empty hvisited
  refine ⟨r, k, e, ?_, ?_, he⟩
  · unfold ResultGetReviews.UnmarshalJSON
    simp only [json.unmarshalReviewMap, storeMembers_eq_foldl members _ hdecodes]
    exact hrun
  · obtain ⟨e1, he1, hk1⟩ := List.mem_map.mp hk
    rw [← hk1]
    exact (hkeys e1.1).mp (List.mem_map_of_mem Prod.fst ((hvisit _).mem_iff.mp he1))

/-- C4, as stated, fails in its last part. In the object with the valid key "1"
and the bad key "x", in the order of the text, the value of "1" is an object,
which does not decode as a sequence of reviews, while the value of "x" decodes.
In both orders of visit the call returns the type error the JSON decoder
raised for the value of "1": the keys are never parsed, and the error is about
the member of a valid key, not about the offending key "x". -/
theorem ResultGetReviews_UnmarshalJSON_bad_key_counterexample :
    isDecimalIntegerString "x" = false ∧
    strconv.ParseInt "1" = .ok 1 ∧
    json.unmarshalReviewSlice (.arr []) = .ok [] ∧
    json.unmarshalReviewSlice (.obj [("a", .num 1)])
      = .error (.unmarshalType (.obj [("a", .num 1)]) "[]ankiconnect.ReviewData") ∧
    ResultGetReviews.UnmarshalJSON id GoMap.empty
        (.obj [("1", .obj [("a", .num 1)]), ("x", .arr [])])
      = (GoMap.empty,
         some (.unmarshalType (.obj [("a", .num 1)]) "[]ankiconnect.ReviewData")) ∧
    ResultGetReviews.UnmarshalJSON List.reverse GoMap.empty
        (.obj [("1", .obj [("a", .num 1)]), ("x", .arr [])])
      = (GoMap.empty,
         some (.unmarshalType (.obj [("a", .num 1)]) "[]ankiconnect.ReviewData")) := by
  exact ⟨by decide, rfl, rfl, rfl, rfl, rfl⟩

/-- C4, amended: for every JSON object with at least one key that is not a
decimal-integer string, whatever its other keys and whatever the order of
visit, `ResultGetReviews.UnmarshalJSON` returns an error; and when every value
of the object decodes as a sequence of review entries, that error is the
`invalid key` error naming a key of the object that does not parse as a
base-10 64-bit integer. -/
theorem ResultGetReviews_UnmarshalJSON_bad_key
    (visit : List (String × List ReviewData) → List (String × List ReviewData))
    (hvisit : ∀ l, (visit l).Perm l) (m : ResultGetReviews) (members : List (String × JSON))
    (k0 : String) (hmem : k0 ∈ members.map Prod.fst)
    (hbad : isDecimalIntegerString k0 = false) :
    (∃ (r : ResultGetReviews) (err : Error),
      ResultGetReviews.UnmarshalJSON visit m (.obj members) = (r, some err)) ∧
    ((∀ kv ∈ members, ∃ l, json.unmarshalReviewSlice kv.2 = .ok l) →
      ∃ (r : ResultGetReviews) (k : String) (e : strconv.NumError),
        ResultGetReviews.UnmarshalJSON visit m (.obj members)
          = (r, some (.errorf "invalid key %q: %s" [.str k, .numError e])) ∧
        k ∈ members.map Prod.fst ∧ strconv.ParseInt k = .error e) := by
  have hnoparse := ParseInt_not_decimal k0 hbad
  refine ⟨?_, UnmarshalJSON_invalid_key_of_decoded visit hvisit m members k0 hmem hnoparse⟩
  cases hstore : json.storeMembers GoMap.empty members with
  | error err =>
    refine ⟨m, err, ?_⟩
    simp only [ResultGetReviews.UnmarshalJSON, json.unmarshalReviewMap, hstore]
  | ok tmp =>
    obtain ⟨r, k, e, hrun, -, -⟩ := UnmarshalJSON_invalid_key_of_decoded visit hvisit m members
      k0 hmem hnoparse (storeMembers_ok_values members _ tmp hstore)
    exact ⟨r, _, hrun⟩

/-- The object of the test `errorBadJsonKey`, with a valid key in front of the
bad one, visited in the order of the text. -/
theorem ResultGetReviews_UnmarshalJSON_bad_key_witness :
    (∃ (r : ResultGetReviews) (err : Error),
      ResultGetReviews.UnmarshalJSON id GoMap.empty
        (.obj (sampleReviewMembers ++ [("not a number", JSON.arr [])])) = (r, some err)) ∧
    ((∀ kv ∈ sampleReviewMembers ++ [("not a number", JSON.arr [])],
        ∃ l, json.unmarshalReviewSlice kv.2 = .ok l) →
      ∃ (r : ResultGetReviews) (k : String) (e : strconv.NumError),
        ResultGetReviews.UnmarshalJSON id GoMap.empty
          (.obj (sampleReviewMembers ++ [("not a number", JSON.arr [])]))
          = (r, some (.errorf "invalid key %q: %s" [.str k, .numError e])) ∧
        k ∈ (sampleReviewMembers ++ [("not a number", JSON.arr [])]).map Prod.fst ∧
        strconv.ParseInt k = .error e) :=
  ResultGetReviews_UnmarshalJSON_bad_key id (fun l => List.Perm.refl l) GoMap.empty
    (sampleReviewMembers ++ [("not a number", JSON.arr [])]) "not a number" (by decide) (by decide)

/-- C5, the code at a failing input: on the object with the valid key "1" and
the bad key "x", visited in that order, the call returns the `invalid key`
error for "x" and leaves in the destination the entry decoded for "1". -/
theorem ResultGetReviews_UnmarshalJSON_partial_on_failure :
    ResultGetReviews.UnmarshalJSON List.reverse GoMap.empty
        (.obj [("1", .arr [.obj [("id", .num 1653772912146)]]), ("x", .arr [])])
      = (⟨[(1, [⟨1653772912146, 0, 0, 0, 0, 0, 0, 0⟩])]⟩,
         some (.errorf "invalid key %q: %s"
           [.str "x", .numError ⟨"ParseInt", "x", .ErrSyntax⟩])) ∧
    GoMap.lookup (ResultGetReviews.UnmarshalJSON List.reverse GoMap.empty
        (.obj [("1", .arr [.obj [("id", .num 1653772912146)]]), ("x", .arr [])])).1 1
      = some [⟨1653772912146, 0, 0, 0, 0, 0, 0, 0⟩] := by
  exact ⟨rfl, rfl⟩

/-- C10, as stated, fails: the object with the keys "1" and "01" decodes
without error in both orders of visit, and the sequence left under the integer
1 is that of "01" in one order and that of "1" in the other. -/
theorem ResultGetReviews_UnmarshalJSON_order_counterexample :
    (ResultGetReviews.UnmarshalJSON id GoMap.empty
        (.obj [("1", .arr [.obj [("id", .num 7)]]), ("01", .arr [.obj [("id", .num 8)]])])).2
      = none ∧
    (ResultGetReviews.UnmarshalJSON List.reverse GoMap.empty
        (.obj [("1", .arr [.obj [("id", .num 7)]]), ("01", .arr [.obj [("id", .num 8)]])])).2
      = none ∧
    GoMap.lookup (ResultGetReviews.UnmarshalJSON id GoMap.empty
        (.obj [("1", .arr [.obj [("id", .num 7)]]), ("01", .arr [.obj [("id", .num 8)]])])).1 1
      = some [⟨7, 0, 0, 0, 0, 0, 0, 0⟩] ∧
    GoMap.lookup (ResultGetReviews.UnmarshalJSON List.reverse GoMap.empty
        (.obj [("1", .arr [.obj [("id", .num 7)]]), ("01", .arr [.obj [("id", .num 8)]])])).1 1
      = some [⟨8, 0, 0, 0, 0, 0, 0, 0⟩] := by
  exact ⟨rfl, rfl, rfl, rfl⟩

/-- C10, amended: for every input in which no two distinct key strings denote
the same integer, any two calls of `ResultGetReviews.UnmarshalJSON` that
succeed on it, whatever their orders of visit and whatever their destinations
held before, leave the same mapping: the same number of entries and the same
sequence, or none, under every integer. -/
theorem ResultGetReviews_UnmarshalJSON_order_independent
    (visit1 visit2 : List (String × List ReviewData) → List (String × List ReviewData))
    (hvisit1 : ∀ l, (visit1 l).Perm l) (hvisit2 : ∀ l, (visit2 l).Perm l)
    (m1 m2 r1 r2 : ResultGetReviews) (data : JSON)
    (hinj : ∀ members, data = .obj members → ∀ kv1 ∈ members, ∀ kv2 ∈ members, ∀ i,
      strconv.ParseInt kv1.1 = .ok i → strconv.ParseInt kv2.1 = .ok i → kv1.1 = kv2.1)
    (hok1 : ResultGetReviews.UnmarshalJSON visit1 m1 data = (r1, none))
    (hok2 : ResultGetReviews.UnmarshalJSON visit2 m2 data = (r2, none)) :
    r1.len = r2.len ∧ ∀ i, r1.lookup i = r2.lookup i := by
  cases data with
  | null =>
    have h1 : visit1 [] = [] := List.perm_nil.mp (hvisit1 [])
    have h2 : visit2 [] = [] := List.perm_nil.mp (hvisit2 [])
    simp only [ResultGetReviews.UnmarshalJSON, json.unmarshalReviewMap, GoMap.empty, h1, h2,
      ResultGetReviews.rangeLoop, Prod.mk.injEq, and_true] at hok1 hok2
    rw [← hok1, ← hok2]
    exact ⟨rfl, fun _ => rfl⟩
  | obj members =>
    cases hstore : json.storeMembers GoMap.empty members with
    | error err =>
      simp only [ResultGetReviews.UnmarshalJSON, json.unmarshalReviewMap, hstore,
        Prod.mk.injEq] at hok1
      cases hok1.2
    | ok tmp =>
      simp only [ResultGetReviews.UnmarshalJSON, json.unmarshalReviewMap, hstore] at hok1 hok2
      have hdecodes := storeMembers_ok_values members _ tmp hstore
      have htmp : tmp = (members.map (fun kv => (kv.1, reviewsOf kv.2))).foldl
          (fun t e => t.store e.1 e.2) (GoMap.empty : GoMap String (List ReviewData)) := by
        have h := storeMembers_eq_foldl members GoMap.empty hdecodes
        rw [hstore] at h
        exact Except.ok.inj h
      have hnodupKeys : tmp.keys.Nodup := by
        rw [htmp]
        exact GoMap.nodup_keys_foldl_store _ _ List.nodup_nil
      have hsub : ∀ x ∈ tmp.keys, x ∈ members.map Prod.fst := by
        intro x hx
        rw [htmp, GoMap.mem_keys_foldl_store, List.map_map] at hx
        rcases hx with h | h
        · exact h
        · cases h
      have hparse1 := rangeLoop_ok_keys _ _ _ hok1
      have hparse : ∀ e ∈ tmp.entries, ∃ i, strconv.ParseInt e.1 = .ok i :=
        fun e he => hparse1 e ((hvisit1 _).mem_iff.mpr he)
      have hparse2 : ∀ e ∈ visit2 tmp.entries, ∃ i, strconv.ParseInt e.1 = .ok i :=
        fun e he => hparse e ((hvisit2 _).mem_iff.mp he)
      have hvalues : (tmp.entries.map (fun e => keyValue e.1)).Nodup := by
        have h : (tmp.keys.map keyValue).Nodup := by
          refine List.Nodup.map_on ?_ hnodupKeys
          intro x hx y hy hxy
          obtain ⟨ex, hex, hexx⟩ := List.mem_map.mp hx
          obtain ⟨ey, hey, heyy⟩ := List.mem_map.mp hy
          obtain ⟨i, hi⟩ := hparse ex hex
          obtain ⟨j, hj⟩ := hparse ey hey
          rw [hexx] at hi
          rw [heyy] at hj
          have hij : i = j := by simpa only [keyValue, hi, hj] using hxy
          obtain ⟨kx, hkx, hkxx⟩ := List.mem_map.mp (hsub x hx)
          obtain ⟨ky, hky, hkyy⟩ := List.mem_map.mp (hsub y hy)
          have := hinj members rfl kx hkx ky hky i (by rw [hkxx]; exact hi)
            (by rw [hkyy, hij]; exact hj)
          rw [hkxx, hkyy] at this
          exact this
        rw [GoMap.keys, List.map_map] at h
        exact h
      have hnodup1 : ((visit1 tmp.entries).map (fun e => keyValue e.1)).Nodup :=
        (((hvisit1 tmp.entries).map (fun e => keyValue e.1)).nodup_iff).mpr hvalues
      have hnodup2 : ((visit2 tmp.entries).map (fun e => keyValue e.1)).Nodup :=
        (((hvisit2 tmp.entries).map (fun e => keyValue e.1)).nodup_iff).mpr hvalues
      rw [rangeLoop_distinct _ hparse1 hnodup1] at hok1
      rw [rangeLoop_distinct _ hparse2 hnodup2] at hok2
      have hr1 := (Prod.mk.inj hok1).1
      have hr2 := (Prod.mk.inj hok2).1
      have hperm : (visit1 tmp.entries).Perm (visit2 tmp.entries) :=
        (hvisit1 _).trans (hvisit2 _).symm
      rw [← hr1, ← hr2]
      constructor
      · simp only [GoMap.len, List.length_reverse, List.length_map]
        exact hperm.length_eq
      · intro i
        refine GoMap.find_perm i _ _ ?_ ?_
        · exact ((List.reverse_perm _).trans (hperm.map _)).trans (List.reverse_perm _).symm
        · rw [List.map_reverse, List.nodup_reverse, List.map_map]
          exact hnodup1
  | bool b =>
    simp only [ResultGetReviews.UnmarshalJSON, json.unmarshalReviewMap, Prod.mk.injEq] at hok1
    cases hok1.2
  | num n =>
    simp only [ResultGetReviews.UnmarshalJSON, json.unmarshalReviewMap, Prod.mk.injEq] at hok1
    cases hok1.2
  | real lit =>
    simp only [ResultGetReviews.UnmarshalJSON, json.unmarshalReviewMap, Prod.mk.injEq] at hok1
    cases hok1.2
  | str s =>
    simp only [ResultGetReviews.UnmarshalJSON, json.unmarshalReviewMap, Prod.mk.injEq] at hok1
    cases hok1.2
  | arr items =>
    simp only [ResultGetReviews.UnmarshalJSON, json.unmarshalReviewMap, Prod.mk.injEq] at hok1
    cases hok1.2

/-- The sample object decoded in the order of the text and in the opposite
order. -/
theorem ResultGetReviews_UnmarshalJSON_order_independent_witness :
    GoMap.len (ResultGetReviews.UnmarshalJSON id GoMap.empty (.obj sampleReviewMembers)).1
      = GoMap.len
          (ResultGetReviews.UnmarshalJSON List.reverse GoMap.empty (.obj sampleReviewMembers)).1 ∧
    ∀ i, GoMap.lookup
          (ResultGetReviews.UnmarshalJSON id GoMap.empty (.obj sampleReviewMembers)).1 i
      = GoMap.lookup
          (ResultGetReviews.UnmarshalJSON List.reverse GoMap.empty (.obj sampleReviewMembers)).1
          i :=
  ResultGetReviews_UnmarshalJSON_order_independent id List.reverse
    (fun l => List.Perm.refl l) (fun l => List.reverse_perm l) GoMap.empty GoMap.empty
    (ResultGetReviews.UnmarshalJSON id GoMap.empty (.obj sampleReviewMembers)).1
    (ResultGetReviews.UnmarshalJSON List.reverse GoMap.empty (.obj sampleReviewMembers)).1
    (.obj sampleReviewMembers)
    (by
      intro members hmembers kv1 h1 kv2 h2 i p1 p2
      cases hmembers
      have e1 : strconv.ParseInt "1653613948202" = .ok 1653613948202 := rfl
      have e2 : strconv.ParseInt "1653613948203" = .ok 1653613948203 := rfl
      simp only [sampleReviewMembers, List.mem_cons, List.mem_singleton, List.not_mem_nil,
        or_false] at h1 h2
      rcases h1 with h1 | h1 <;> rcases h2 with h2 | h2 <;> subst h1 <;> subst h2
      · rfl
      · rw [e1] at p1
        rw [e2] at p2
        have q1 := Except.ok.inj p1
        have q2 := Except.ok.inj p2
        omega
      · rw [e2] at p1
        rw [e1] at p2
        have q1 := Except.ok.inj p1
        have q2 := Except.ok.inj p2
        omega
      · rfl)
    rfl rfl

end ankiconnect
